import Mathlib

/-!
Shallow embedding of the core of `src/App.tsx` (video library store and
control-panel button state machine), with theorems checking the spec's
claims against it.

Conventions of the embedding:
* JS arrays become `List`; `Array.prototype.filter` / `map` / spread-append
  become `List.filter` / `List.map` / `++`.
* The JS `Map` built from `videos.map(v => [v.id, v])` is modelled by
  `mapGet`: the value for a key is the *last* entry with that key, exactly
  as repeated `Map.set` leaves the last write.
* `Math.floor(Math.random() * n)` (a draw in `[0, n)`) is modelled by an
  arbitrary natural number `r` reduced modulo `n`.
* The per-id outcome of a `fetch` call is modelled by an oracle
  `String → FetchOutcome`; `FetchOutcome.reject` is a rejected promise
  (network error / thrown json parse), `notOk` is `!response.ok`,
  `errPayload` is a truthy `data.error`, and `ok title thumb` is a success
  where `title`/`thumb` are `some` exactly when the corresponding JSON
  field is truthy (the JS `||` fallback collapses missing/empty to `none`).
* React state updates in one handler are modelled as a pure function on an
  explicit state record, applied sequentially.
-/

namespace AikatsuKibun

/-- `type Video = { id: string; title: string; thumbnailUrl: string }` -/
structure Video where
  id : String
  title : String
  thumbnailUrl : String
deriving DecidableEq, Repr

/-- The three arcade buttons of `GameControls`. -/
inductive ButtonColor where
  | red
  | green
  | yellow
deriving DecidableEq, Repr

/-- The library-store state of the `App` component: the video collection,
the persisted favorite ids, and the current selection. -/
structure AppState where
  videos : List Video
  favoriteIds : List String
  videoId : String
deriving DecidableEq, Repr

/-- `handleToggleFavorite` (App.tsx:614-618):
`prev.includes(id) ? prev.filter(favId => favId !== id) : [...prev, id]`. -/
def handleToggleFavorite (id : String) (prev : List String) : List String :=
  if id ∈ prev then prev.filter (fun favId => favId != id) else prev ++ [id]

/-- Run a sequence of `handleToggleFavorite` calls starting from the empty
favorite list (the persisted default `[]`). -/
def toggleSeq (seq : List String) : List String :=
  seq.foldl (fun acc id => handleToggleFavorite id acc) []

theorem toggle_nodup (x : String) (l : List String) (h : l.Nodup) :
    (handleToggleFavorite x l).Nodup := by
  unfold handleToggleFavorite
  split
  · exact h.filter _
  · next hx => simp [List.nodup_append, h, hx]

theorem toggle_mem_self (x : String) (l : List String) :
    x ∈ handleToggleFavorite x l ↔ x ∉ l := by
  unfold handleToggleFavorite
  split <;> simp_all [List.mem_filter]

theorem toggle_mem_other (x id : String) (l : List String) (h : id ≠ x) :
    id ∈ handleToggleFavorite x l ↔ id ∈ l := by
  unfold handleToggleFavorite
  split <;> simp [List.mem_filter, h]

theorem toggleSeq_invariant (seq : List String) :
    ∀ (l : List String), l.Nodup →
      (seq.foldl (fun acc id => handleToggleFavorite id acc) l).Nodup ∧
      ∀ id, id ∈ seq.foldl (fun acc id => handleToggleFavorite id acc) l ↔
        (id ∈ l ↔ Even (seq.count id)) := by
  induction seq with
  | nil =>
    intro l h
    refine ⟨h, fun id => ?_⟩
    simp
  | cons x rest ih =>
    intro l h
    have h' := toggle_nodup x l h
    obtain ⟨hn, hm⟩ := ih (handleToggleFavorite x l) h'
    refine ⟨hn, fun id => ?_⟩
    rw [List.foldl_cons, hm id]
    by_cases hx : id = x
    · subst hx
      rw [toggle_mem_self]
      have hc : (id :: rest).count id = rest.count id + 1 := by
        simp [List.count_cons]
      rw [hc, Nat.even_add_one]
      tauto
    · rw [toggle_mem_other x id l hx]
      have hc : (x :: rest).count id = rest.count id := by
        simp [List.count_cons, hx]
      rw [hc]

/-- Claim C1: for every sequence of `toggleFavorite` calls starting from an
empty favorite list, each id occurs at most once, and membership holds
exactly when the id was toggled an odd number of times; a toggle of an
absent id appends it to the end, and a toggle of a present id removes all
its occurrences. -/
theorem toggleFavorite_pairing_law :
    (∀ (seq : List String) (id : String), (toggleSeq seq).count id ≤ 1) ∧
    (∀ (seq : List String) (id : String),
        id ∈ toggleSeq seq ↔ Odd (seq.count id)) ∧
    (∀ (id : String) (l : List String), id ∉ l →
        handleToggleFavorite id l = l ++ [id]) ∧
    (∀ (id : String) (l : List String), id ∈ l →
        handleToggleFavorite id l = l.filter (fun favId => favId != id)) := by
  have key : ∀ seq : List String,
      (toggleSeq seq).Nodup ∧
      ∀ id, id ∈ toggleSeq seq ↔ Odd (seq.count id) := by
    intro seq
    obtain ⟨hn, hm⟩ := toggleSeq_invariant seq [] List.nodup_nil
    refine ⟨hn, fun id => ?_⟩
    rw [toggleSeq, hm id]
    simp [Nat.not_even_iff_odd]
  refine ⟨?_, ?_, ?_, ?_⟩
  · intro seq id
    exact List.nodup_iff_count_le_one.mp (key seq).1 id
  · intro seq id
    exact (key seq).2 id
  · intro id l h
    unfold handleToggleFavorite
    exact if_neg h
  · intro id l h
    unfold handleToggleFavorite
    exact if_pos h

/-- Witness for C1 at concrete inputs: toggling an id absent from `["a"]`
appends it; toggling an id present in `["a", "c"]` filters it out. -/
theorem toggleFavorite_pairing_law_witness :
    handleToggleFavorite "b" ["a"] = ["a"] ++ ["b"] ∧
    handleToggleFavorite "a" ["a", "c"] =
      (["a", "c"].filter (fun favId => favId != "a")) :=
  ⟨toggleFavorite_pairing_law.2.2.1 "b" ["a"] (by decide),
   toggleFavorite_pairing_law.2.2.2 "a" ["a", "c"] (by decide)⟩

/-- The JS `Map` built in `favoriteVideos` (App.tsx:560) from
`videos.map(v => [v.id, v])`: `get(id)` returns the value of the last
entry inserted for `id`, i.e. the last video in `videos` with that id. -/
def mapGet (videos : List Video) (id : String) : Option Video :=
  videos.reverse.find? (fun v => v.id == id)

/-- `favoriteVideos` (App.tsx:559-562):
`favoriteIds.map(id => favoriteVideoMap.get(id)).filter(v => v !== undefined)`. -/
def favoriteVideos (videos : List Video) (favoriteIds : List String) : List Video :=
  favoriteIds.filterMap (fun id => mapGet videos id)

theorem mapGet_mem {videos : List Video} {id : String} {v : Video}
    (h : mapGet videos id = some v) : v ∈ videos := by
  have hm := List.mem_of_find?_eq_some h
  exact List.mem_reverse.mp hm

theorem mapGet_id {videos : List Video} {id : String} {v : Video}
    (h : mapGet videos id = some v) : v.id = id := by
  have hp := List.find?_some h
  exact beq_iff_eq.mp hp

theorem mapGet_isSome (videos : List Video) (id : String) :
    (mapGet videos id).isSome = videos.any (fun v => v.id == id) := by
  rw [mapGet]
  rcases h : videos.reverse.find? (fun v => v.id == id) with _ | v
  · have hall := List.find?_eq_none.mp h
    have : videos.any (fun v => v.id == id) = false := by
      rw [List.any_eq_false]
      intro w hw
      exact hall w (List.mem_reverse.mpr hw)
    rw [this, h]
    rfl
  · have hm := List.mem_of_find?_eq_some h
    have hp := List.find?_some h
    have : videos.any (fun v => v.id == id) = true := by
      rw [List.any_eq_true]
      exact ⟨v, List.mem_reverse.mp hm, hp⟩
    rw [this, h]
    rfl

/-- Claim C2: `favoritesView` produces, in favorite-list order, exactly the
videos whose ids are present in the collection; every video in the result
is an element of the collection, and absent ids are silently omitted. -/
theorem favoritesView_presence :
    ∀ (videos : List Video) (favs : List String),
    (∀ v ∈ favoriteVideos videos favs, v ∈ videos) ∧
    (favoriteVideos videos favs).map Video.id =
      favs.filter (fun id => videos.any (fun v => v.id == id)) := by
  intro videos favs
  constructor
  · intro v hv
    obtain ⟨id, _, h⟩ := List.mem_filterMap.mp hv
    exact mapGet_mem h
  · induction favs with
    | nil => rfl
    | cons id rest ih =>
      rw [favoriteVideos, List.filterMap_cons]
      rcases h : mapGet videos id with _ | v
      · have hs : videos.any (fun v => v.id == id) = false := by
          rw [← mapGet_isSome videos id, h]
          rfl
        rw [List.filter_cons_of_neg (by simp [hs])]
        exact ih
      · have hs : videos.any (fun v => v.id == id) = true := by
          rw [← mapGet_isSome videos id, h]
          rfl
        rw [List.filter_cons_of_pos (by simp [hs]), List.map_cons, mapGet_id h]
        rw [favoriteVideos] at ih
        rw [ih]

/-- A concrete video used in witnesses. -/
def vA : Video := { id := "a", title := "A", thumbnailUrl := "ta" }

/-- A second concrete video used in witnesses. -/
def vB : Video := { id := "b", title := "B", thumbnailUrl := "tb" }

/-- Witness for C2: with collection `[vA]` and favorites `["x", "a"]`, the
video produced by the view is an element of the collection. -/
theorem favoritesView_presence_witness : vA ∈ [vA] :=
  (favoritesView_presence [vA] ["x", "a"]).1 vA (by decide)

/-- `handleResetUserVideos` (App.tsx:655-668). `seedIds` is the
deduplicated seed list `initialVideoIds`; `r` models the value of
`Math.random() * length` rounded down (any natural, reduced mod the
length, which agrees with the code's in-range draw). The collection is
filtered to seed ids; the selection is re-picked only when the old
selection is not a seed id. -/
def handleResetUserVideos (seedIds : List String) (r : Nat) (s : AppState) :
    AppState :=
  { s with
    videos := s.videos.filter (fun video => seedIds.contains video.id),
    videoId :=
      if seedIds.contains s.videoId then s.videoId
      else if 0 < seedIds.length then seedIds.getD (r % seedIds.length) ""
      else "" }

theorem getD_mem_of_lt (l : List String) (i : Nat) (d : String)
    (h : i < l.length) : l.getD i d ∈ l := by
  induction l generalizing i with
  | nil => simp at h
  | cons x t ih =>
    cases i with
    | zero => simp
    | succ j =>
      rw [List.getD_cons_succ]
      exact List.mem_cons_of_mem x (ih j (by simpa using h))

/-- Claim C3: immediately after `resetUserVideos`, the selected id is a
member of the seed identifier set, or the empty string when that set is
empty; a selection removed by the filtering is repaired to a seed id. -/
theorem resetUserVideos_selection_repair :
    ∀ (seedIds : List String) (r : Nat) (s : AppState),
    (seedIds ≠ [] → (handleResetUserVideos seedIds r s).videoId ∈ seedIds) ∧
    (seedIds = [] → (handleResetUserVideos seedIds r s).videoId = "") := by
  intro seedIds r s
  unfold handleResetUserVideos
  constructor
  · intro hne
    dsimp only
    split
    · next h => exact List.elem_iff.mp h
    · rw [if_pos (List.length_pos_of_ne_nil hne)]
      exact getD_mem_of_lt seedIds _ ""
        (Nat.mod_lt r (List.length_pos_of_ne_nil hne))
  · intro he
    subst he
    simp

/-- Witness for C3: resetting with the nonempty seed list `["a"]` from a
state selecting the non-seed id `"b"` repairs the selection into the seed
set, and resetting with the empty seed list empties the selection. -/
theorem resetUserVideos_selection_repair_witness :
    (handleResetUserVideos ["a"] 0
        { videos := [vA, vB], favoriteIds := [], videoId := "b" }).videoId ∈
      ["a"] ∧
    (handleResetUserVideos [] 0
        { videos := [vA, vB], favoriteIds := [], videoId := "b" }).videoId =
      "" :=
  ⟨(resetUserVideos_selection_repair ["a"] 0
      { videos := [vA, vB], favoriteIds := [], videoId := "b" }).1
      (by decide),
   (resetUserVideos_selection_repair [] 0
      { videos := [vA, vB], favoriteIds := [], videoId := "b" }).2 rfl⟩

/-- Claim C4: `resetUserVideos` is idempotent on the library collection:
running it twice (with any two random draws) yields the same collection as
running it once. -/
theorem resetUserVideos_idempotent :
    ∀ (seedIds : List String) (r₁ r₂ : Nat) (s : AppState),
    (handleResetUserVideos seedIds r₂ (handleResetUserVideos seedIds r₁ s)).videos =
      (handleResetUserVideos seedIds r₁ s).videos := by
  intro seedIds r₁ r₂ s
  simp [handleResetUserVideos, List.filter_filter]

/-- Claim C10: `resetUserVideos` leaves the favorite-id list unchanged; it
only filters the collection and repairs the selection. -/
theorem resetUserVideos_preserves_favorites :
    ∀ (seedIds : List String) (r : Nat) (s : AppState),
    (handleResetUserVideos seedIds r s).favoriteIds = s.favoriteIds := by
  intro seedIds r s
  rfl

/-- The outcome of the remote lookup for one id in `fetchVideoDetails`
(App.tsx:564-591): a rejected promise (network error or thrown parse), a
non-success transport response (`!response.ok`), a service-reported error
payload (`data.error` truthy), or a success whose `title`/`thumbnail_url`
fields are `some` exactly when truthy in the JSON. -/
inductive FetchOutcome where
  | reject
  | notOk
  | errPayload
  | ok (title : Option String) (thumb : Option String)
deriving DecidableEq, Repr

/-- The `defaultData` fallback video of `fetchVideoDetails`
(App.tsx:568-572 and 585-589). -/
def defaultVideo (id : String) : Video :=
  { id := id,
    title := "動画 (ID: " ++ id ++ ")",
    thumbnailUrl := "https://i.ytimg.com/vi/" ++ id ++ "/mqdefault.jpg" }

/-- The per-id body of `fetchVideoDetails` (App.tsx:566-581), given that
the promise for this id did not reject. -/
def perIdVideo (o : FetchOutcome) (id : String) : Video :=
  match o with
  | .ok title thumb =>
    { id := id,
      title := title.getD ("無題の動画 (ID: " ++ id ++ ")"),
      thumbnailUrl := thumb.getD ("https://i.ytimg.com/vi/" ++ id ++ "/mqdefault.jpg") }
  | _ => defaultVideo id

/-- `fetchVideoDetails` (App.tsx:564-591): per-id mapping inside a
`try`; when any per-id promise rejects, `Promise.all` rejects and the
`catch` replaces the whole batch by fallback videos. -/
def fetchVideoDetails (f : String → FetchOutcome)
    (ids : List String) : List Video :=
  if ids.any (fun id => f id == FetchOutcome.reject) then
    ids.map defaultVideo
  else
    ids.map (fun id => perIdVideo (f id) id)

theorem perIdVideo_id (o : FetchOutcome) (id : String) :
    (perIdVideo o id).id = id := by
  cases o <;> rfl

theorem map_defaultVideo_id (ids : List String) :
    (ids.map defaultVideo).map Video.id = ids := by
  induction ids with
  | nil => rfl
  | cons x t ih => simpa [defaultVideo] using ih

theorem map_perIdVideo_id (f : String → FetchOutcome) (ids : List String) :
    (ids.map (fun id => perIdVideo (f id) id)).map Video.id = ids := by
  induction ids with
  | nil => rfl
  | cons x t ih => simpa [perIdVideo_id] using ih

theorem fetchVideoDetails_map_id (f : String → FetchOutcome)
    (ids : List String) : (fetchVideoDetails f ids).map Video.id = ids := by
  unfold fetchVideoDetails
  split
  · exact map_defaultVideo_id ids
  · exact map_perIdVideo_id f ids

/-- An oracle on which id `"aa"` suffers a network error while id `"bb"`
succeeds with full metadata. -/
def mixedOracle : String → FetchOutcome :=
  fun id =>
    if id = "aa" then FetchOutcome.reject
    else FetchOutcome.ok (some "T") (some "U")

/-- Counterexample to C6 as stated: with a batch `["aa", "bb"]` in which
only `"aa"`'s lookup rejects and `"bb"`'s succeeds, the code replaces the
entry for the *successful* id `"bb"` by the fallback video instead of its
fetched metadata, so failure is not isolated to the failing id. -/
theorem fetchMany_isolation_cex :
    fetchVideoDetails mixedOracle ["aa", "bb"] =
      [defaultVideo "aa", defaultVideo "bb"] ∧
    mixedOracle "bb" = FetchOutcome.ok (some "T") (some "U") ∧
    perIdVideo (mixedOracle "bb") "bb" ≠ defaultVideo "bb" := by
  refine ⟨rfl, rfl, ?_⟩
  decide

/-- Claim C6 (amended): `fetchMany` returns a list of the same length and
order as its input and never fails as a whole; a non-success response or
an error payload is isolated per id (when no lookup in the batch rejects,
each id independently gets its fetched metadata or the fallback), but a
rejected lookup (network error) anywhere in the batch replaces every
entry by the deterministic fallback video. -/
theorem fetchMany_order_fallback :
    ∀ (f : String → FetchOutcome) (ids : List String),
    (fetchVideoDetails f ids).map Video.id = ids ∧
    ((∀ id ∈ ids, f id ≠ FetchOutcome.reject) →
        fetchVideoDetails f ids = ids.map (fun id => perIdVideo (f id) id)) ∧
    ((∃ id ∈ ids, f id = FetchOutcome.reject) →
        fetchVideoDetails f ids = ids.map defaultVideo) := by
  intro f ids
  refine ⟨fetchVideoDetails_map_id f ids, ?_, ?_⟩
  · intro h
    unfold fetchVideoDetails
    rw [if_neg]
    intro hany
    obtain ⟨id, hmem, hbeq⟩ := List.any_eq_true.mp hany
    exact h id hmem (beq_iff_eq.mp hbeq)
  · intro ⟨id, hmem, heq⟩
    unfold fetchVideoDetails
    rw [if_pos]
    exact List.any_eq_true.mpr ⟨id, hmem, beq_iff_eq.mpr heq⟩

/-- Witness for C6 (amended) at concrete inputs: a reject-free batch maps
per id, and a batch containing a rejecting id degrades to all-fallback. -/
theorem fetchMany_order_fallback_witness :
    fetchVideoDetails (fun _ => FetchOutcome.notOk) ["aa"] =
      (["aa"].map fun id => perIdVideo ((fun _ => FetchOutcome.notOk) id) id) ∧
    fetchVideoDetails mixedOracle ["aa", "bb"] =
      ["aa", "bb"].map defaultVideo :=
  ⟨(fetchMany_order_fallback (fun _ => FetchOutcome.notOk) ["aa"]).2.1
      (by decide),
   (fetchMany_order_fallback mixedOracle ["aa", "bb"]).2.2
      ⟨"aa", by decide, by decide⟩⟩

/-- The user-visible failures of `handleAddVideo` (App.tsx:620-649): an
unrecognizable URL, or a fetch-layer failure rethrown as an addition
failure. -/
inductive AddError where
  | invalidReference
  | additionFailed
deriving DecidableEq, Repr

/-- `handleAddVideo` (App.tsx:620-649). `extract` embeds the regex-based
`extractVideoId`; `f` is the per-id fetch oracle of `fetchVideoDetails`.
If the text yields no id the call throws; if the id already exists in the
collection the call is a pure selection; otherwise the fetched (or
fallback) video is prepended and selected. -/
def handleAddVideo (f : String → FetchOutcome)
    (extract : String → Option String) (url : String) (s : AppState) :
    Except AddError AppState :=
  match extract url with
  | none => .error .invalidReference
  | some newVideoId =>
    if s.videos.any (fun v => v.id == newVideoId) then
      .ok { s with videoId := newVideoId }
    else
      match fetchVideoDetails f [newVideoId] with
      | [] => .error .additionFailed
      | v :: _ => .ok { s with videos := v :: s.videos, videoId := newVideoId }

/-- The state the caller holds after `handleAddVideo`: the new state on
success, the old state when the call threw (React state untouched). -/
def applyAddVideo (f : String → FetchOutcome)
    (extract : String → Option String) (url : String) (s : AppState) :
    AppState :=
  match handleAddVideo f extract url s with
  | .ok s' => s'
  | .error _ => s

/-- Number of collection entries carrying a given id. -/
def countId (id : String) (videos : List Video) : Nat :=
  videos.countP (fun v => v.id == id)

theorem fetchVideoDetails_single (f : String → FetchOutcome) (id : String) :
    fetchVideoDetails f [id] =
      [if f id == FetchOutcome.reject then defaultVideo id
       else perIdVideo (f id) id] := by
  unfold fetchVideoDetails
  rcases h : f id == FetchOutcome.reject with _ | _ <;> simp [h]

/-- Claim C5: for a resolvable URL, if the resolved id is already in the
collection the call is a pure selection; from a state without the id, two
calls with the same URL leave exactly one collection entry for that id. -/
theorem addByReference_no_duplicate :
    ∀ (f : String → FetchOutcome) (extract : String → Option String)
      (url : String) (s : AppState) (id : String),
    extract url = some id →
    ((s.videos.any (fun v => v.id == id)) = true →
        handleAddVideo f extract url s = .ok { s with videoId := id }) ∧
    (countId id s.videos = 0 →
        ∃ s₁, handleAddVideo f extract url s = .ok s₁ ∧
          countId id s₁.videos = 1 ∧
          handleAddVideo f extract url s₁ = .ok { s₁ with videoId := id } ∧
          countId id ({ s₁ with videoId := id } : AppState).videos = 1) := by
  intro f extract url s id hex
  constructor
  · intro hany
    unfold handleAddVideo
    rw [hex]
    dsimp only
    rw [if_pos hany]
  · intro hcnt
    unfold countId at hcnt
    have hany : (s.videos.any (fun v => v.id == id)) = false := by
      rw [List.any_eq_false]
      intro v hv
      exact List.countP_eq_zero.mp hcnt v hv
    set v := if f id == FetchOutcome.reject then defaultVideo id
             else perIdVideo (f id) id with hv
    have hvid : v.id = id := by
      rw [hv]
      split
      · rfl
      · exact perIdVideo_id (f id) id
    refine ⟨{ s with videos := v :: s.videos, videoId := id }, ?_, ?_, ?_, ?_⟩
    · unfold handleAddVideo
      rw [hex]
      dsimp only
      rw [if_neg (by simp [hany]), fetchVideoDetails_single]
    · unfold countId
      rw [List.countP_cons, hcnt]
      simp [hvid]
    · unfold handleAddVideo
      rw [hex]
      dsimp only
      rw [if_pos]
      rw [List.any_cons]
      simp [hvid]
    · unfold countId
      rw [List.countP_cons, hcnt]
      simp [hvid]

/-- Witness for C5: adding the id `"ccc"` twice to an empty collection
leaves exactly one entry for it. -/
theorem addByReference_no_duplicate_witness :
    ∃ s₁, handleAddVideo (fun _ => FetchOutcome.notOk) (fun _ => some "ccc")
        "https://youtu.be/ccc" { videos := [], favoriteIds := [], videoId := "" } =
      .ok s₁ ∧
      countId "ccc" s₁.videos = 1 ∧
      handleAddVideo (fun _ => FetchOutcome.notOk) (fun _ => some "ccc")
        "https://youtu.be/ccc" s₁ = .ok { s₁ with videoId := "ccc" } ∧
      countId "ccc" ({ s₁ with videoId := "ccc" } : AppState).videos = 1 :=
  (addByReference_no_duplicate (fun _ => FetchOutcome.notOk)
    (fun _ => some "ccc") "https://youtu.be/ccc"
    { videos := [], favoriteIds := [], videoId := "" } "ccc" rfl).2 (by decide)

/-- Claim C7: when the URL text contains no recognizable id,
`addByReference` fails with `InvalidReference` and mutates nothing: the
collection, the favorite list and the selection are all unchanged. -/
theorem addByReference_invalid_atomic :
    ∀ (f : String → FetchOutcome) (extract : String → Option String)
      (url : String) (s : AppState),
    extract url = none →
    handleAddVideo f extract url s = .error .invalidReference ∧
    applyAddVideo f extract url s = s ∧
    (applyAddVideo f extract url s).videos = s.videos ∧
    (applyAddVideo f extract url s).favoriteIds = s.favoriteIds ∧
    (applyAddVideo f extract url s).videoId = s.videoId := by
  intro f extract url s h
  have h1 : handleAddVideo f extract url s = .error .invalidReference := by
    unfold handleAddVideo
    rw [h]
  have h2 : applyAddVideo f extract url s = s := by
    unfold applyAddVideo
    rw [h1]
  exact ⟨h1, h2, by rw [h2], by rw [h2], by rw [h2]⟩

/-- Witness for C7: a text not containing an id leaves the concrete state
untouched. -/
theorem addByReference_invalid_atomic_witness :
    handleAddVideo (fun _ => FetchOutcome.notOk) (fun _ => none) "not a url"
        { videos := [vA], favoriteIds := ["a"], videoId := "a" } =
      .error .invalidReference ∧
    applyAddVideo (fun _ => FetchOutcome.notOk) (fun _ => none) "not a url"
        { videos := [vA], favoriteIds := ["a"], videoId := "a" } =
      { videos := [vA], favoriteIds := ["a"], videoId := "a" } :=
  ⟨(addByReference_invalid_atomic (fun _ => FetchOutcome.notOk)
      (fun _ => none) "not a url"
      { videos := [vA], favoriteIds := ["a"], videoId := "a" } rfl).1,
   (addByReference_invalid_atomic (fun _ => FetchOutcome.notOk)
      (fun _ => none) "not a url"
      { videos := [vA], favoriteIds := ["a"], videoId := "a" } rfl).2.1⟩

/-- The `GameControls` state (App.tsx:113-115): per-button pressed flags
(`pressedState`) and interval handles (`soundIntervalRef`), plus counters
for emitted immediate ticks (`playSound()` calls in `handlePress`) and
started repeating timers (`setInterval` calls), and a supply of fresh
handles. -/
structure ControlsState where
  pressed : ButtonColor → Bool
  timer : ButtonColor → Option Nat
  ticks : Nat
  intervalsStarted : Nat
  nextHandle : Nat

/-- The initial `GameControls` state: nothing pressed, no timers. -/
def initControls : ControlsState :=
  { pressed := fun _ => false,
    timer := fun _ => none,
    ticks := 0,
    intervalsStarted := 0,
    nextHandle := 0 }

/-- `handlePress` (App.tsx:134-145): no-op when already pressed;
otherwise mark pressed, defensively clear any stale interval, emit one
immediate tick, and start one repeating interval. -/
def handlePress (color : ButtonColor) (s : ControlsState) : ControlsState :=
  if s.pressed color then s
  else
    { pressed := fun c => if c = color then true else s.pressed c,
      timer := fun c => if c = color then some s.nextHandle else s.timer c,
      ticks := s.ticks + 1,
      intervalsStarted := s.intervalsStarted + 1,
      nextHandle := s.nextHandle + 1 }

/-- `handleRelease` (App.tsx:147-156): no-op when not pressed; otherwise
mark released and clear the interval (clearing when none is present
leaves it absent, as the code's guard does). -/
def handleRelease (color : ButtonColor) (s : ControlsState) : ControlsState :=
  if s.pressed color then
    { s with
      pressed := fun c => if c = color then false else s.pressed c,
      timer := fun c => if c = color then none else s.timer c }
  else s

/-- The per-button invariant of the spec: a timer handle exists iff the
pressed flag is true (`Option` makes "at most one timer per button"
structural). -/
def timerInvariant (s : ControlsState) : Prop :=
  ∀ c, (s.timer c).isSome = s.pressed c

theorem handlePress_pressed (color : ButtonColor) (s : ControlsState) :
    (handlePress color s).pressed color = true := by
  unfold handlePress
  split
  · next h => exact h
  · simp

/-- Claim C8: a second press of an already-pressed button is a no-op, so
two consecutive presses emit exactly one immediate tick and start exactly
one repeating timer; and both `press` and `release` preserve the
per-button invariant "a timer handle exists iff the pressed flag is
true". -/
theorem press_idempotent_invariant :
    ∀ (s : ControlsState) (color : ButtonColor),
    handlePress color (handlePress color s) = handlePress color s ∧
    (s.pressed color = false →
      (handlePress color (handlePress color s)).ticks = s.ticks + 1 ∧
      (handlePress color (handlePress color s)).intervalsStarted =
        s.intervalsStarted + 1) ∧
    (timerInvariant s → timerInvariant (handlePress color s)) ∧
    (timerInvariant s → timerInvariant (handleRelease color s)) := by
  intro s color
  have hnoop : handlePress color (handlePress color s) = handlePress color s := by
    conv_lhs => rw [handlePress]
    rw [if_pos (handlePress_pressed color s)]
  refine ⟨hnoop, ?_, ?_, ?_⟩
  · intro hf
    rw [hnoop]
    unfold handlePress
    rw [if_neg (by simp [hf])]
    exact ⟨rfl, rfl⟩
  · intro hinv c
    unfold handlePress
    split
    · exact hinv c
    · dsimp only
      by_cases hc : c = color
      · rw [if_pos hc, if_pos hc]
        rfl
      · rw [if_neg hc, if_neg hc]
        exact hinv c
  · intro hinv c
    unfold handleRelease
    split
    · dsimp only
      by_cases hc : c = color
      · rw [if_pos hc, if_pos hc]
        rfl
      · rw [if_neg hc, if_neg hc]
        exact hinv c
    · exact hinv c

/-- Witness for C8: from the initial state, two presses of the red button
emit one tick and start one interval, and the invariant holds after the
press. -/
theorem press_idempotent_invariant_witness :
    (handlePress ButtonColor.red (handlePress ButtonColor.red initControls)).ticks = 1 ∧
    (handlePress ButtonColor.red (handlePress ButtonColor.red initControls)).intervalsStarted = 1 ∧
    timerInvariant (handlePress ButtonColor.red initControls) := by
  have h := press_idempotent_invariant initControls ButtonColor.red
  exact ⟨(h.2.1 rfl).1, (h.2.1 rfl).2, h.2.2.1 (fun c => rfl)⟩

/-- The body of the `do`/`while` rejection-sampling loop of
`handleFeelingLucky` (App.tsx:673-678), run against an explicit stream of
random draws (each draw models one `Math.floor(Math.random() * length)`,
reduced mod the length); `none` means the supplied draws were exhausted
with every draw rejected. -/
def luckyLoop (videos : List Video) (cur : String) : List Nat → Option String
  | [] => none
  | n :: rest =>
    let newVideoId := (videos.getD (n % videos.length) (defaultVideo "")).id
    if newVideoId = cur then luckyLoop videos cur rest else some newVideoId

/-- `handleFeelingLucky` (App.tsx:670-681): return unchanged when the
collection has at most one entry; otherwise run the rejection-sampling
loop and select its result (unchanged if the draw stream ran out). -/
def handleFeelingLucky (videos : List Video) (videoId : String)
    (draws : List Nat) : String :=
  if videos.length ≤ 1 then videoId
  else
    match luckyLoop videos videoId draws with
    | some newVideoId => newVideoId
    | none => videoId

theorem luckyLoop_ne (videos : List Video) (cur : String) :
    ∀ (draws : List Nat) (id : String),
    luckyLoop videos cur draws = some id → id ≠ cur := by
  intro draws
  induction draws with
  | nil => intro id h; exact absurd h (by simp [luckyLoop])
  | cons n rest ih =>
    intro id h
    rw [luckyLoop] at h
    split at h
    · exact ih id h
    · next hne =>
      injection h with h
      subst h
      exact hne

/-- Claim C9: the precondition check comes before the loop (a collection
with at most one entry returns unchanged without sampling); when the
collection has several entries and ids are duplicate-free there is a draw
(a nonzero fraction of the draw space) on which the loop exits at once,
and whenever the loop produces an id it differs from the current one. -/
theorem feelingLucky_precondition_termination :
    ∀ (videos : List Video) (cur : String) (draws : List Nat),
    (videos.length ≤ 1 → handleFeelingLucky videos cur draws = cur) ∧
    (∀ id, luckyLoop videos cur draws = some id → id ≠ cur) ∧
    (1 < videos.length → (videos.map Video.id).Nodup →
      ∃ n, n < videos.length ∧ ∀ rest : List Nat, ∃ id,
        luckyLoop videos cur (n :: rest) = some id ∧ id ≠ cur ∧
        handleFeelingLucky videos cur (n :: rest) = id) := by
  intro videos cur draws
  refine ⟨?_, luckyLoop_ne videos cur draws, ?_⟩
  · intro h
    unfold handleFeelingLucky
    rw [if_pos h]
  · intro hlen hnodup
    rcases videos with _ | ⟨v0, _ | ⟨v1, t⟩⟩
    · simp at hlen
    · simp at hlen
    · have hne : v0.id ≠ v1.id := by
        rw [List.map_cons, List.map_cons, List.nodup_cons] at hnodup
        intro h
        apply hnodup.1
        rw [h]
        exact List.mem_cons_self _ _
      have hgt : ¬((v0 :: v1 :: t).length ≤ 1) := by
        simp only [List.length_cons]
        omega
      by_cases hc : v0.id = cur
      · have hv1 : v1.id ≠ cur := fun h => hne (hc.trans h.symm)
        have hm : (1 : Nat) % (v0 :: v1 :: t).length = 1 :=
          Nat.mod_eq_of_lt (by simp only [List.length_cons]; omega)
        have hloop : ∀ rest : List Nat,
            luckyLoop (v0 :: v1 :: t) cur (1 :: rest) = some v1.id := by
          intro rest
          rw [luckyLoop]
          rw [hm]
          simp only [List.getD_cons_succ, List.getD_cons_zero]
          rw [if_neg hv1]
        refine ⟨1, by simp only [List.length_cons]; omega,
          fun rest => ⟨v1.id, hloop rest, hv1, ?_⟩⟩
        unfold handleFeelingLucky
        rw [if_neg hgt, hloop rest]
      · have hm0 : (0 : Nat) % (v0 :: v1 :: t).length = 0 := Nat.zero_mod _
        have hloop : ∀ rest : List Nat,
            luckyLoop (v0 :: v1 :: t) cur (0 :: rest) = some v0.id := by
          intro rest
          rw [luckyLoop]
          rw [hm0]
          simp only [List.getD_cons_zero]
          rw [if_neg hc]
        refine ⟨0, by simp only [List.length_cons]; omega,
          fun rest => ⟨v0.id, hloop rest, hc, ?_⟩⟩
        unfold handleFeelingLucky
        rw [if_neg hgt, hloop rest]

/-- Witness for C9: a single-entry collection returns unchanged, and for
the two-entry collection `[vA, vB]` with current id `"a"` there is a draw
on which the loop exits at once with a different id. -/
theorem feelingLucky_precondition_termination_witness :
    handleFeelingLucky [vA] "a" [5] = "a" ∧
    ∃ n, n < ([vA, vB] : List Video).length ∧ ∀ rest : List Nat, ∃ id,
      luckyLoop [vA, vB] "a" (n :: rest) = some id ∧ id ≠ "a" ∧
      handleFeelingLucky [vA, vB] "a" (n :: rest) = id :=
  ⟨(feelingLucky_precondition_termination [vA] "a" [5]).1 (by decide),
   (feelingLucky_precondition_termination [vA, vB] "a" []).2.2
     (by decide) (by decide)⟩

end AikatsuKibun
